import Mathlib

/-!
Verification development for the Strinova Discord rich-presence monitor
(`src/main.py`).  The per-tick signal pipeline is shallowly embedded:

* `MatchTracker` — the hysteresis state machine (`MatchTracker.__init__`,
  `MatchTracker.update`, `MatchTracker.elapsed_seconds`);
* the OCR identity resolver (`OCRReader.read_weapon_name`) together with a
  faithful model of `difflib.get_close_matches` / `SequenceMatcher.ratio`;
* the match-info parser (`OCRReader.read_match_info`) with the clock regex;
* the region-to-pixel mapping (`ScreenCapture.grab_region`);
* the preprocessing pipeline (`OCRReader._preprocess`) over a dimensional
  model of the imaging collaborator;
* the presence payload construction (`DiscordRPC.update`) and the per-tick
  publish/reconnect logic of `main`.

Python machine values are modelled exactly where the logic depends on them:
`int()` is truncation toward zero on rationals, string truthiness is
non-emptiness, float timestamps are rationals, and the similarity cutoff is
a rational (the float arithmetic of `difflib` is modelled by exact rational
arithmetic).  Strings are `List Char`; `str.lower`/`str.strip` are modelled
on ASCII, which covers every string the program manipulates.
-/

namespace StrinovaRPC

/-- Python `int()` applied to a rational: truncation toward zero. -/
def pyInt (q : ℚ) : ℤ := if 0 ≤ q then ⌊q⌋ else ⌈q⌉

/-- Python `str.lower`, modelled on ASCII characters. -/
def pyLower (s : List Char) : List Char := s.map Char.toLower

/-- Python `str.strip` (no argument): remove leading and trailing
whitespace, modelled with `Char.isWhitespace`. -/
def pyStrip (s : List Char) : List Char :=
  ((s.dropWhile Char.isWhitespace).reverse.dropWhile Char.isWhitespace).reverse

/-- A fold preserves any invariant preserved by each step. -/
theorem foldl_invariant {α β : Type} (P : β → Prop) (f : β → α → β) :
    ∀ (l : List α) (b : β), P b → (∀ a ∈ l, ∀ x, P x → P (f x a)) →
      P (l.foldl f b) := by
  intro l
  induction l with
  | nil => intro b hb _; exact hb
  | cons a t ih =>
    intro b hb hstep
    exact ih (f b a) (hstep a (by simp) b hb)
      (fun x hx y hy => hstep x (by simp [hx]) y hy)

/-! ## MatchTracker (`src/main.py`, class `MatchTracker`) -/

/-- State of `MatchTracker`: the configured streak threshold
(`objective_verification_count`, default 3) plus the three mutable fields
set in `MatchTracker.__init__`. -/
structure MatchTracker where
  streakThreshold : ℕ
  in_match : Bool
  match_start_time : Option ℚ
  no_objective_streak : ℕ
deriving DecidableEq, Repr

/-- `MatchTracker.__init__`: not in a match, no start time, streak 0. -/
def MatchTracker.init (threshold : ℕ) : MatchTracker :=
  { streakThreshold := threshold
    in_match := false
    match_start_time := none
    no_objective_streak := 0 }

/-- `MatchTracker.update`, with the wall-clock reading `now` passed
explicitly (the Python code reads `time.time()`). -/
def MatchTracker.update (s : MatchTracker) (has_objective : Bool) (now : ℚ) :
    MatchTracker :=
  if has_objective && !s.in_match then
    { s with in_match := true, match_start_time := some now,
             no_objective_streak := 0 }
  else if has_objective && s.in_match then
    { s with no_objective_streak := 0 }
  else if !has_objective && s.in_match then
    let streak := s.no_objective_streak + 1
    if s.streakThreshold ≤ streak then
      { s with in_match := false, match_start_time := none,
               no_objective_streak := 0 }
    else
      { s with no_objective_streak := streak }
  else s

/-- Run the tracker over a list of ticks `(has_objective, now)`. -/
def MatchTracker.run (s : MatchTracker) (ticks : List (Bool × ℚ)) :
    MatchTracker :=
  ticks.foldl (fun st t => st.update t.1 t.2) s

/-- `MatchTracker.elapsed_seconds`: `int(time.time() - start)` when a start
time is recorded, else `None`. -/
def MatchTracker.elapsed (s : MatchTracker) (now : ℚ) : Option ℤ :=
  s.match_start_time.map (fun st => pyInt (now - st))

/-- `MatchTracker.start_timestamp`: the recorded start time verbatim. -/
def MatchTracker.startTimestamp (s : MatchTracker) : Option ℚ :=
  s.match_start_time

/-- The six-tick scenario of the end-to-end test: objective signals
`[False, True, True, False, False, False]` at clock readings `0..5`. -/
def scenarioTicks : List (Bool × ℚ) :=
  [(false, 0), (true, 1), (true, 2), (false, 3), (false, 4), (false, 5)]

/-- C1: `MatchTracker.update` implements the §4.4 transition table, and the
six-tick scenario `[False, True, True, False, False, False]` with threshold
3 yields `in_match` readings `[False, True, True, True, True, False]` with
the start time `none` except for the single value recorded at the second
tick (clock 1) and kept until the final tick. -/
theorem C1_matchTracker_transition_table :
    (∀ (s : MatchTracker) (now : ℚ), s.in_match = false →
        s.update true now =
          { s with in_match := true, match_start_time := some now,
                   no_objective_streak := 0 })
  ∧ (∀ (s : MatchTracker) (now : ℚ), s.in_match = false →
        s.update false now = s)
  ∧ (∀ (s : MatchTracker) (now : ℚ), s.in_match = true →
        s.update true now = { s with no_objective_streak := 0 })
  ∧ (∀ (s : MatchTracker) (now : ℚ), s.in_match = true →
        s.update false now =
          if s.streakThreshold ≤ s.no_objective_streak + 1 then
            { s with in_match := false, match_start_time := none,
                     no_objective_streak := 0 }
          else
            { s with no_objective_streak := s.no_objective_streak + 1 })
  ∧ ((List.range 6).map
        (fun k => ((MatchTracker.init 3).run (scenarioTicks.take (k + 1))).in_match)
        = [false, true, true, true, true, false])
  ∧ ((List.range 6).map
        (fun k =>
          ((MatchTracker.init 3).run (scenarioTicks.take (k + 1))).match_start_time)
        = [none, some 1, some 1, some 1, some 1, none]) := by
  refine ⟨?_, ?_, ?_, ?_, ?_, ?_⟩
  · intro s now h; simp [MatchTracker.update, h]
  · intro s now h; simp [MatchTracker.update, h]
  · intro s now h; simp [MatchTracker.update, h]
  · intro s now h; simp [MatchTracker.update, h]
  · decide
  · decide

/-- Witness for C1: the first table row applied to the initial state. -/
theorem C1_witness :
    (MatchTracker.init 3).update true 7 =
      { MatchTracker.init 3 with in_match := true, match_start_time := some 7,
                                 no_objective_streak := 0 } :=
  C1_matchTracker_transition_table.1 (MatchTracker.init 3) 7 rfl

/-- The tracker invariant: the threshold is the configured one, `in_match`
holds exactly when a start time is recorded, the streak stays below the
threshold, and the streak is 0 outside a match. -/
def TrackerInv (threshold : ℕ) (s : MatchTracker) : Prop :=
  s.streakThreshold = threshold
  ∧ (s.in_match = true ↔ s.match_start_time ≠ none)
  ∧ s.no_objective_streak < threshold
  ∧ (s.in_match = false → s.no_objective_streak = 0)

theorem trackerInv_init {threshold : ℕ} (h : 1 ≤ threshold) :
    TrackerInv threshold (MatchTracker.init threshold) := by
  refine ⟨rfl, by simp [MatchTracker.init], ?_, fun _ => rfl⟩
  simpa [MatchTracker.init] using h

theorem trackerInv_update {threshold : ℕ} {s : MatchTracker}
    (h : TrackerInv threshold s) (b : Bool) (now : ℚ) :
    TrackerInv threshold (s.update b now) := by
  obtain ⟨hθ, hiff, hlt, hzero⟩ := h
  have hpos : 1 ≤ threshold := by omega
  cases hb : b <;> cases hm : s.in_match
  · -- objective absent, not in a match: no change
    have hupd : s.update false now = s := by
      simp [MatchTracker.update, hm]
    rw [hupd]; exact ⟨hθ, hiff, hlt, hzero⟩
  · -- objective absent, in a match: streak bump, maybe match end
    by_cases hth : s.streakThreshold ≤ s.no_objective_streak + 1
    · have hupd : s.update false now =
          { s with in_match := false, match_start_time := none,
                   no_objective_streak := 0 } := by
        simp [MatchTracker.update, hm, hth]
      rw [hupd]
      exact ⟨hθ, by simp, hpos, fun _ => rfl⟩
    · have hupd : s.update false now =
          { s with no_objective_streak := s.no_objective_streak + 1 } := by
        simp [MatchTracker.update, hm, hth]
      rw [hupd]
      exact ⟨hθ, by simpa using hiff,
        by simpa using (show s.no_objective_streak + 1 < threshold by omega),
        by simp [hm]⟩
  · -- objective present, not in a match: match starts
    have hupd : s.update true now =
        { s with in_match := true, match_start_time := some now,
                 no_objective_streak := 0 } := by
      simp [MatchTracker.update, hm]
    rw [hupd]
    exact ⟨hθ, by simp, hpos, by simp⟩
  · -- objective present, in a match: streak reset
    have hupd : s.update true now = { s with no_objective_streak := 0 } := by
      simp [MatchTracker.update, hm]
    rw [hupd]
    exact ⟨hθ, by simpa using hiff, hpos, by simp [hm]⟩

theorem trackerInv_run {threshold : ℕ} (h : 1 ≤ threshold)
    (ticks : List (Bool × ℚ)) :
    TrackerInv threshold ((MatchTracker.init threshold).run ticks) :=
  foldl_invariant (TrackerInv threshold) _ ticks _ (trackerInv_init h)
    (fun t _ _ hx => trackerInv_update hx t.1 t.2)

/-- C9: at initialization (`ticks = []`) and after every sequence of update
calls, for any threshold ≥ 1: `in_match` is true exactly when
`match_start_time` is non-none, the streak is below the threshold (and, as a
natural number, is ≥ 0), and the streak is 0 whenever `in_match` is false. -/
theorem C9_matchTracker_invariant (threshold : ℕ) (hθ : 1 ≤ threshold)
    (ticks : List (Bool × ℚ)) (s : MatchTracker)
    (hs : s = (MatchTracker.init threshold).run ticks) :
    (s.in_match = true ↔ s.match_start_time ≠ none)
    ∧ s.no_objective_streak < threshold
    ∧ (s.in_match = false → s.no_objective_streak = 0) := by
  subst hs
  obtain ⟨_, h₁, h₂, h₃⟩ := trackerInv_run hθ ticks
  exact ⟨h₁, h₂, h₃⟩

/-- Witness for C9 at threshold 3 and one tick. -/
theorem C9_witness :
    let s := (MatchTracker.init 3).run [(true, 5)]
    (s.in_match = true ↔ s.match_start_time ≠ none)
    ∧ s.no_objective_streak < 3
    ∧ (s.in_match = false → s.no_objective_streak = 0) :=
  C9_matchTracker_invariant 3 (by decide) [(true, 5)] _ rfl

theorem pyInt_nonneg {q : ℚ} (h : 0 ≤ q) : 0 ≤ pyInt q := by
  simpa [pyInt, h] using Int.floor_nonneg.mpr h

theorem pyInt_mono {a b : ℚ} (h0 : 0 ≤ a) (hab : a ≤ b) :
    pyInt a ≤ pyInt b := by
  have h0' : 0 ≤ b := le_trans h0 hab
  simpa [pyInt, h0, h0'] using Int.floor_le_floor hab

/-- C6: for every reachable tracker state, `elapsed_seconds` is none while
not in a match; while in a match it is the clock reading minus the recorded
start time (as a whole number of seconds, i.e. truncated to an integer),
hence non-negative and monotonically non-decreasing for a monotonic clock,
and the recorded start time is unchanged by any update that stays in the
match. -/
theorem C6_elapsed_seconds (threshold : ℕ) (hθ : 1 ≤ threshold)
    (ticks : List (Bool × ℚ)) (s : MatchTracker)
    (hs : s = (MatchTracker.init threshold).run ticks) :
    (s.in_match = false → ∀ now : ℚ, s.elapsed now = none)
    ∧ (s.in_match = true →
        ∃ st : ℚ, s.match_start_time = some st
          ∧ (∀ now : ℚ, s.elapsed now = some (pyInt (now - st)))
          ∧ (∀ now : ℚ, st ≤ now → ∃ z : ℤ, s.elapsed now = some z ∧ 0 ≤ z)
          ∧ (∀ n₁ n₂ : ℚ, st ≤ n₁ → n₁ ≤ n₂ → ∀ z₁ z₂ : ℤ,
              s.elapsed n₁ = some z₁ → s.elapsed n₂ = some z₂ → z₁ ≤ z₂)
          ∧ (∀ (b : Bool) (now : ℚ), (s.update b now).in_match = true →
              (s.update b now).match_start_time = some st)) := by
  have hInv : TrackerInv threshold s := hs ▸ trackerInv_run hθ ticks
  obtain ⟨_, hiff, _, _⟩ := hInv
  constructor
  · intro hfalse now
    have : s.match_start_time = none := by
      by_contra hne
      have := hiff.mpr hne
      rw [hfalse] at this
      exact Bool.false_ne_true this
    simp [MatchTracker.elapsed, this]
  · intro htrue
    obtain ⟨st, hst⟩ : ∃ st, s.match_start_time = some st := by
      rcases h : s.match_start_time with _ | st
      · exact absurd (hiff.mp htrue) (by simp [h])
      · exact ⟨st, rfl⟩
    refine ⟨st, hst, ?_, ?_, ?_, ?_⟩
    · intro now; simp [MatchTracker.elapsed, hst]
    · intro now hle
      refine ⟨pyInt (now - st), by simp [MatchTracker.elapsed, hst], ?_⟩
      exact pyInt_nonneg (by linarith)
    · intro n₁ n₂ h₁ h₁₂ z₁ z₂ hz₁ hz₂
      simp only [MatchTracker.elapsed, hst, Option.map_some', Option.some_inj] at hz₁ hz₂
      subst hz₁; subst hz₂
      exact pyInt_mono (by linarith) (by linarith)
    · intro b now hupd
      cases b
      · by_cases hth : s.streakThreshold ≤ s.no_objective_streak + 1
        · exfalso
          have : (s.update false now).in_match = false := by
            simp [MatchTracker.update, htrue, hth]
          rw [hupd] at this
          exact absurd this (by decide)
        · simpa [MatchTracker.update, htrue, hth] using hst
      · simpa [MatchTracker.update, htrue] using hst

/-- Witness for C6: after a single objective tick at clock 2. -/
theorem C6_witness :
    let s := (MatchTracker.init 3).run [(true, 2)]
    (s.in_match = false → ∀ now : ℚ, s.elapsed now = none)
    ∧ (s.in_match = true →
        ∃ st : ℚ, s.match_start_time = some st
          ∧ (∀ now : ℚ, s.elapsed now = some (pyInt (now - st)))
          ∧ (∀ now : ℚ, st ≤ now → ∃ z : ℤ, s.elapsed now = some z ∧ 0 ≤ z)
          ∧ (∀ n₁ n₂ : ℚ, st ≤ n₁ → n₁ ≤ n₂ → ∀ z₁ z₂ : ℤ,
              s.elapsed n₁ = some z₁ → s.elapsed n₂ = some z₂ → z₁ ≤ z₂)
          ∧ (∀ (b : Bool) (now : ℚ), (s.update b now).in_match = true →
              (s.update b now).match_start_time = some st)) :=
  C6_elapsed_seconds 3 (by decide) [(true, 2)] _ rfl

/-! ## Presence payload (`DiscordRPC.update`) and the main-loop character
clearing (`main`, step "Reset character if match has ended") -/

/-- The `display_options` entries read by `DiscordRPC.update` (absent keys
default to `True` via `dict.get`). -/
structure DisplayOptions where
  show_character : Bool
  show_timer : Bool
deriving DecidableEq

/-- The configuration read in `DiscordRPC.__init__`: branding image/text and
the character→icon map. -/
structure RpcConfig where
  small_image : String
  large_text : String
  character_icons : List (String × String)
deriving DecidableEq

/-- The keyword arguments `DiscordRPC.update` passes to `rpc.update`; keys
it may leave unset are options. -/
structure PresencePayload where
  large_image : String
  large_text : String
  small_image : Option String
  small_text : Option String
  details : String
  state : String
  start : Option ℤ
deriving DecidableEq

/-- Python truthiness of an optional string (`None` and `""` are falsy). -/
def truthyStr : Option String → Bool
  | none => false
  | some s => !s.isEmpty

/-- Python truthiness of an optional timestamp (`None` and `0.0` falsy). -/
def truthyTime : Option ℚ → Bool
  | none => false
  | some t => decide (t ≠ 0)

/-- The kwargs construction of `DiscordRPC.update`. -/
def buildPayload (cfg : RpcConfig) (disp : DisplayOptions)
    (character_name : Option String) (match_start_ts : Option ℚ) :
    PresencePayload :=
  let base : PresencePayload :=
    if truthyStr character_name && disp.show_character then
      let name := character_name.getD ""
      let icon_key := cfg.character_icons.lookup name
      if truthyStr icon_key then
        { large_image := icon_key.getD "", large_text := name,
          small_image := some cfg.small_image,
          small_text := some cfg.large_text,
          details := "Playing as " ++ name, state := "", start := none }
      else
        { large_image := cfg.small_image, large_text := cfg.large_text,
          small_image := some cfg.small_image,
          small_text := some cfg.large_text,
          details := "Playing as " ++ name, state := "", start := none }
    else
      { large_image := cfg.small_image, large_text := cfg.large_text,
        small_image := none, small_text := none,
        details := "In Game", state := "", start := none }
  if truthyTime match_start_ts && disp.show_timer then
    { base with start := some (pyInt (match_start_ts.getD 0)),
                state := "In Match" }
  else
    { base with state := "In Menu" }

/-- The main loop clears the cached character before building the payload
whenever the tracker is not in a match. -/
def mainCharacterArg (cached : Option String) (t : MatchTracker) :
    Option String :=
  if t.in_match then cached else none

/-- C5: on any tick where the tracker's `in_match` is false (the transition
tick included), the payload built by the main loop shows the generic
branding image and text, details "In Game", state "In Menu", and no start
timestamp, whatever character name was cached. -/
theorem C5_menu_payload (cfg : RpcConfig) (disp : DisplayOptions)
    (cached : Option String) (threshold : ℕ) (hθ : 1 ≤ threshold)
    (ticks : List (Bool × ℚ)) (s : MatchTracker)
    (hs : s = (MatchTracker.init threshold).run ticks)
    (hnm : s.in_match = false) :
    buildPayload cfg disp (mainCharacterArg cached s) s.startTimestamp
      = { large_image := cfg.small_image, large_text := cfg.large_text,
          small_image := none, small_text := none,
          details := "In Game", state := "In Menu", start := none } := by
  have hInv : TrackerInv threshold s := hs ▸ trackerInv_run hθ ticks
  have hstart : s.match_start_time = none := by
    by_contra hne
    have := hInv.2.1.mpr hne
    rw [hnm] at this
    exact absurd this (by decide)
  simp [buildPayload, mainCharacterArg, truthyStr, truthyTime, hnm, hstart,
    MatchTracker.startTimestamp]

/-- Witness for C5: after a match that ends on the fourth tick, with a
cached character from the match. -/
theorem C5_witness :
    buildPayload ⟨"strinova_logo", "Strinova", [("Michele", "michele_icon")]⟩
        ⟨true, true⟩
        (mainCharacterArg (some "Michele")
          ((MatchTracker.init 3).run [(true, 1), (false, 2), (false, 3), (false, 4)]))
        ((MatchTracker.init 3).run
          [(true, 1), (false, 2), (false, 3), (false, 4)]).startTimestamp
      = { large_image := "strinova_logo", large_text := "Strinova",
          small_image := none, small_text := none,
          details := "In Game", state := "In Menu", start := none } :=
  C5_menu_payload _ _ _ 3 (by decide) [(true, 1), (false, 2), (false, 3), (false, 4)]
    _ rfl (by decide)

/-! ## Presence transport session handling (`DiscordRPC.connect`,
`DiscordRPC.update` exception handling, and main-loop step 5) -/

/-- Connection state of `DiscordRPC` (`self.connected`; `self.rpc is None`
only before the first `connect`, which the flag also covers). -/
structure RpcConn where
  connected : Bool
deriving DecidableEq

/-- Outcome of one `rpc.update` call: success, the distinguishable
`InvalidID` exception, or any other exception. -/
inductive PublishResult
  | ok
  | invalidID
  | otherError
deriving DecidableEq

/-- `DiscordRPC.update`: early-return when not connected; on `InvalidID`
mark disconnected; absorb any other exception.  The second component
records whether a publish was attempted (false on the early return). -/
def rpcUpdate (c : RpcConn) (res : PublishResult) : RpcConn × Bool :=
  if c.connected = false then (c, false)
  else
    match res with
    | .ok => (c, true)
    | .invalidID => ({ connected := false }, true)
    | .otherError => (c, true)

/-- `DiscordRPC.connect`: sets `connected` to the outcome. -/
def rpcConnect (success : Bool) : RpcConn :=
  { connected := success }

/-- One main-loop tick restricted to the presence transport: publish, then
reconnect once if the connection is down.  Returns the new state, whether a
publish was attempted, and whether a reconnect was attempted. -/
def mainTickRpc (c : RpcConn) (res : PublishResult) (connectSuccess : Bool) :
    RpcConn × Bool × Bool :=
  let u := rpcUpdate c res
  if u.1.connected = false then (rpcConnect connectSuccess, u.2, true)
  else (u.1, u.2, false)

/-- Run the transport part of the main loop over a tick list, logging per
tick whether a publish and a reconnect were attempted. -/
def runRpc (c : RpcConn) (ticks : List (PublishResult × Bool)) :
    RpcConn × List (Bool × Bool) :=
  ticks.foldl
    (fun acc t =>
      let r := mainTickRpc acc.1 t.1 t.2
      (r.1, acc.2 ++ [(r.2.1, r.2.2)]))
    (c, [])

/-- Counterexample to C7 as stated: after an invalid-session publish
failure, the main loop attempts the reconnect at the end of the very same
tick (first log entry: publish attempted, reconnect attempted), and when
that reconnect succeeds the next tick's update publishes again (second log
entry: publish attempted) — it is not a no-op, and no reconnect happened on
any subsequent tick. -/
theorem C7_counterexample :
    runRpc { connected := true } [(.invalidID, true), (.ok, true)]
      = ({ connected := true }, [(true, true), (true, false)]) := by
  decide

/-- C7 (amended): an invalid-session publish failure, and only that, marks
the connection unusable; while disconnected, update is a no-op; the main
loop attempts exactly one reconnect in any tick that ends update
disconnected — starting with the failure tick itself — setting the
connection to the reconnect outcome; other publish failures are absorbed
without marking the connection disconnected, leaving the state unchanged so
publish is retried next tick. -/
theorem C7_session_handling (c : RpcConn) (res : PublishResult)
    (connectSuccess : Bool) :
    (c.connected = true →
      ((rpcUpdate c res).1.connected = false ↔ res = .invalidID))
    ∧ (rpcUpdate c res).2 = c.connected
    ∧ (c.connected = false → rpcUpdate c res = (c, false))
    ∧ (c.connected = true → res = .otherError → (mainTickRpc c res connectSuccess).1 = c)
    ∧ ((mainTickRpc c res connectSuccess).2.2 = true ↔
        (rpcUpdate c res).1.connected = false)
    ∧ ((rpcUpdate c res).1.connected = false →
        (mainTickRpc c res connectSuccess).1.connected = connectSuccess) := by
  obtain ⟨cc⟩ := c
  cases cc <;> cases res <;> cases connectSuccess <;>
    simp [rpcUpdate, mainTickRpc, rpcConnect]

/-- Witness for C7: a connected session hit by an invalid-session failure
with a failing same-tick reconnect. -/
theorem C7_witness :
    (({ connected := true } : RpcConn).connected = true →
      ((rpcUpdate { connected := true } .invalidID).1.connected = false ↔
        PublishResult.invalidID = .invalidID))
    ∧ (rpcUpdate { connected := true } .invalidID).2 =
        ({ connected := true } : RpcConn).connected
    ∧ (({ connected := true } : RpcConn).connected = false →
        rpcUpdate { connected := true } .invalidID = ({ connected := true }, false))
    ∧ (({ connected := true } : RpcConn).connected = true →
        PublishResult.invalidID = .otherError →
        (mainTickRpc { connected := true } .invalidID false).1 = { connected := true })
    ∧ ((mainTickRpc { connected := true } .invalidID false).2.2 = true ↔
        (rpcUpdate { connected := true } .invalidID).1.connected = false)
    ∧ ((rpcUpdate { connected := true } .invalidID).1.connected = false →
        (mainTickRpc { connected := true } .invalidID false).1.connected = false) :=
  C7_session_handling { connected := true } .invalidID false

/-! ## Region-to-pixel mapping (`ScreenCapture.grab_region`) -/

/-- A fractional screen region from `config.json`. -/
structure Region where
  left : ℚ
  top : ℚ
  right : ℚ
  bottom : ℚ
deriving DecidableEq

/-- Primary monitor geometry as returned by the capture collaborator. -/
structure Monitor where
  left : ℤ
  top : ℤ
  width : ℕ
  height : ℕ
deriving DecidableEq

/-- The bbox dict built by `ScreenCapture.grab_region`. -/
structure BBox where
  left : ℤ
  top : ℤ
  width : ℤ
  height : ℤ
deriving DecidableEq

/-- `ScreenCapture.grab_region`: `int(frac * dimension) + offset` per side,
then width/height as differences. -/
def grabRegionBBox (mon : Monitor) (r : Region) : BBox :=
  let left := pyInt (r.left * mon.width) + mon.left
  let top := pyInt (r.top * mon.height) + mon.top
  let right := pyInt (r.right * mon.width) + mon.left
  let bottom := pyInt (r.bottom * mon.height) + mon.top
  { left := left, top := top, width := right - left, height := bottom - top }

theorem pyInt_eq_floor {q : ℚ} (h : 0 ≤ q) : pyInt q = ⌊q⌋ := by
  simp [pyInt, h]

/-- Floor bounds for one axis of the mapping. -/
theorem axis_bounds {lo hi : ℚ} {w : ℕ} (h0 : 0 ≤ lo) (hlh : lo ≤ hi)
    (h1 : hi ≤ 1) :
    0 ≤ ⌊lo * (w : ℚ)⌋ ∧ ⌊hi * (w : ℚ)⌋ ≤ (w : ℤ)
    ∧ ⌊lo * (w : ℚ)⌋ ≤ ⌊hi * (w : ℚ)⌋
    ∧ (1 ≤ (hi - lo) * (w : ℚ) → ⌊lo * (w : ℚ)⌋ < ⌊hi * (w : ℚ)⌋) := by
  have hw0 : (0 : ℚ) ≤ (w : ℚ) := Nat.cast_nonneg w
  refine ⟨Int.floor_nonneg.mpr (mul_nonneg h0 hw0), ?_, ?_, ?_⟩
  · have : hi * (w : ℚ) ≤ (w : ℚ) := by
      calc hi * (w : ℚ) ≤ 1 * (w : ℚ) := mul_le_mul_of_nonneg_right h1 hw0
        _ = (w : ℚ) := one_mul _
    calc ⌊hi * (w : ℚ)⌋ ≤ ⌊(w : ℚ)⌋ := Int.floor_le_floor this
      _ = (w : ℤ) := Int.floor_natCast w
  · exact Int.floor_le_floor (mul_le_mul_of_nonneg_right hlh hw0)
  · intro hgap
    have hstep : lo * (w : ℚ) + 1 ≤ hi * (w : ℚ) := by nlinarith
    have : ⌊lo * (w : ℚ)⌋ + 1 ≤ ⌊hi * (w : ℚ)⌋ := by
      calc ⌊lo * (w : ℚ)⌋ + 1 = ⌊lo * (w : ℚ) + 1⌋ := (Int.floor_add_one _).symm
        _ ≤ ⌊hi * (w : ℚ)⌋ := Int.floor_le_floor hstep
    omega

/-- Counterexample to C3 as stated: the region with `left = 3/10`,
`right = 7/20` on a 10-pixel-wide monitor satisfies every hypothesis of the
claim, yet both fractions land in the same pixel cell and the resulting
width is 0, not strictly positive. -/
theorem C3_counterexample :
    (0 : ℚ) ≤ (3 : ℚ) / 10 ∧ (3 : ℚ) / 10 < 7 / 20 ∧ (7 : ℚ) / 20 ≤ 1
    ∧ (0 : ℚ) ≤ (1 : ℚ) / 10 ∧ (1 : ℚ) / 10 < 1 / 2 ∧ (1 : ℚ) / 2 ≤ 1
    ∧ 0 < (10 : ℕ) ∧ 0 < (10 : ℕ)
    ∧ (grabRegionBBox ⟨0, 0, 10, 10⟩ ⟨3/10, 1/10, 7/20, 1/2⟩).width = 0 := by
  have h35 : pyInt ((7 : ℚ) / 20 * ((10 : ℕ) : ℚ)) = 3 := by
    rw [pyInt_eq_floor (by norm_num)]
    rw [show (7 : ℚ) / 20 * ((10 : ℕ) : ℚ) = 7 / 2 by push_cast; ring]
    exact Int.floor_eq_iff.mpr ⟨by norm_num, by norm_num⟩
  have h30 : pyInt ((3 : ℚ) / 10 * ((10 : ℕ) : ℚ)) = 3 := by
    rw [pyInt_eq_floor (by norm_num)]
    rw [show (3 : ℚ) / 10 * ((10 : ℕ) : ℚ) = 3 by push_cast; ring]
    exact Int.floor_eq_iff.mpr ⟨by norm_num, by norm_num⟩
  have hw : (grabRegionBBox ⟨0, 0, 10, 10⟩ ⟨3/10, 1/10, 7/20, 1/2⟩).width
      = (pyInt ((7 : ℚ) / 20 * ((10 : ℕ) : ℚ)) + 0)
        - (pyInt ((3 : ℚ) / 10 * ((10 : ℕ) : ℚ)) + 0) := rfl
  refine ⟨by norm_num, by norm_num, by norm_num, by norm_num, by norm_num,
    by norm_num, by norm_num, by norm_num, ?_⟩
  rw [hw, h35, h30]; norm_num

/-- C3 (amended): for every fractional region with `left < right` and
`top < bottom` in `[0,1]`, positive monitor dimensions and any offsets, the
mapping yields a box whose bounds lie within `[offset, offset+dimension]`
and whose width and height are non-negative; they are strictly positive
whenever the fractional gap covers at least one pixel
(`(right-left)*width ≥ 1`, resp. `(bottom-top)*height ≥ 1`), but may be 0
when the two fractions fall in the same pixel cell. -/
theorem C3_region_mapping (mon : Monitor) (r : Region)
    (hl0 : 0 ≤ r.left) (hlr : r.left < r.right) (hr1 : r.right ≤ 1)
    (ht0 : 0 ≤ r.top) (htb : r.top < r.bottom) (hb1 : r.bottom ≤ 1) :
    mon.left ≤ (grabRegionBBox mon r).left
    ∧ (grabRegionBBox mon r).left + (grabRegionBBox mon r).width
        ≤ mon.left + mon.width
    ∧ mon.top ≤ (grabRegionBBox mon r).top
    ∧ (grabRegionBBox mon r).top + (grabRegionBBox mon r).height
        ≤ mon.top + mon.height
    ∧ 0 ≤ (grabRegionBBox mon r).width
    ∧ 0 ≤ (grabRegionBBox mon r).height
    ∧ (1 ≤ (r.right - r.left) * (mon.width : ℚ) →
        0 < (grabRegionBBox mon r).width)
    ∧ (1 ≤ (r.bottom - r.top) * (mon.height : ℚ) →
        0 < (grabRegionBBox mon r).height) := by
  obtain ⟨hx0, hx1, hxm, hxp⟩ :=
    axis_bounds (w := mon.width) hl0 (le_of_lt hlr) hr1
  obtain ⟨hy0, hy1, hym, hyp⟩ :=
    axis_bounds (w := mon.height) ht0 (le_of_lt htb) hb1
  have el : pyInt (r.left * (mon.width : ℚ)) = ⌊r.left * (mon.width : ℚ)⌋ :=
    pyInt_eq_floor (mul_nonneg hl0 (Nat.cast_nonneg _))
  have er : pyInt (r.right * (mon.width : ℚ)) = ⌊r.right * (mon.width : ℚ)⌋ :=
    pyInt_eq_floor (mul_nonneg (le_trans hl0 (le_of_lt hlr)) (Nat.cast_nonneg _))
  have et : pyInt (r.top * (mon.height : ℚ)) = ⌊r.top * (mon.height : ℚ)⌋ :=
    pyInt_eq_floor (mul_nonneg ht0 (Nat.cast_nonneg _))
  have eb : pyInt (r.bottom * (mon.height : ℚ)) = ⌊r.bottom * (mon.height : ℚ)⌋ :=
    pyInt_eq_floor (mul_nonneg (le_trans ht0 (le_of_lt htb)) (Nat.cast_nonneg _))
  refine ⟨?_, ?_, ?_, ?_, ?_, ?_, ?_, ?_⟩ <;>
    simp only [grabRegionBBox, el, er, et, eb]
  · omega
  · omega
  · omega
  · omega
  · omega
  · omega
  · intro h; have := hxp h; omega
  · intro h; have := hyp h; omega

/-- Witness for C3: a 9:10 region band on a 1920×1080 monitor offset by
(5, 7). -/
theorem C3_witness :
    let mon : Monitor := ⟨5, 7, 1920, 1080⟩
    let r : Region := ⟨1/10, 1/5, 9/10, 4/5⟩
    mon.left ≤ (grabRegionBBox mon r).left
    ∧ (grabRegionBBox mon r).left + (grabRegionBBox mon r).width
        ≤ mon.left + mon.width
    ∧ mon.top ≤ (grabRegionBBox mon r).top
    ∧ (grabRegionBBox mon r).top + (grabRegionBBox mon r).height
        ≤ mon.top + mon.height
    ∧ 0 ≤ (grabRegionBBox mon r).width
    ∧ 0 ≤ (grabRegionBBox mon r).height
    ∧ (1 ≤ (r.right - r.left) * (mon.width : ℚ) →
        0 < (grabRegionBBox mon r).width)
    ∧ (1 ≤ (r.bottom - r.top) * (mon.height : ℚ) →
        0 < (grabRegionBBox mon r).height) :=
  C3_region_mapping ⟨5, 7, 1920, 1080⟩ ⟨1/10, 1/5, 9/10, 4/5⟩
    (by norm_num) (by norm_num) (by norm_num)
    (by norm_num) (by norm_num) (by norm_num)

/-! ## OCR preprocessing (`OCRReader._preprocess`) -/

/-- Image channel mode (the collaborator's "RGB" vs. single-channel "L"). -/
inductive PMode
  | RGB
  | L
deriving DecidableEq

/-- Dimensional model of the imaging collaborator's image object. -/
structure PImage where
  width : ℕ
  height : ℕ
  mode : PMode
deriving DecidableEq

/-- Collaborator model: `Image.resize` returns an image of exactly the
requested size, same mode (the spec treats the imaging library as a black
box whose resize/convert/enhance/filter preserve these observables). -/
def imgResize (img : PImage) (size : ℕ × ℕ) : PImage :=
  { img with width := size.1, height := size.2 }

/-- Collaborator model: `Image.convert("L")` yields a single-channel image
of the same dimensions. -/
def imgConvertL (img : PImage) : PImage :=
  { img with mode := .L }

/-- Collaborator model: the contrast boost keeps dimensions and mode. -/
def imgEnhanceContrast (_factor : ℚ) (img : PImage) : PImage := img

/-- Collaborator model: one sharpening pass keeps dimensions and mode. -/
def imgSharpen (img : PImage) : PImage := img

/-- `OCRReader._preprocess`: upscale, grayscale, contrast ×2.5, sharpen. -/
def preprocess (img : PImage) (upscale : ℕ) : PImage :=
  imgSharpen (imgEnhanceContrast (5/2)
    (imgConvertL (imgResize img (img.width * upscale, img.height * upscale))))

/-- C8: for every input image and every positive integer upscale factor, the
preprocessing pipeline is total and returns a single-channel image of
dimensions `(w * upscale, h * upscale)`. -/
theorem C8_preprocess_dimensions (img : PImage) (upscale : ℕ)
    (_h : 0 < upscale) :
    preprocess img upscale =
      { width := img.width * upscale, height := img.height * upscale,
        mode := .L } := by
  simp [preprocess, imgSharpen, imgEnhanceContrast, imgConvertL, imgResize]

/-- Witness for C8 at a 100×20 RGB crop and the default factor 3. -/
theorem C8_witness :
    preprocess ⟨100, 20, .RGB⟩ 3 = { width := 300, height := 60, mode := .L } :=
  C8_preprocess_dimensions ⟨100, 20, .RGB⟩ 3 (by decide)

/-! ## Match-info parsing (`OCRReader.read_match_info`) -/

/-- The clock pattern `\d{1,2}:\d{2}`: 1–2 digits, a colon, exactly 2
digits (`\d` modelled as an ASCII digit). -/
def isClock (s : List Char) : Bool :=
  match s with
  | [a, b, c, d, e] => a.isDigit && b.isDigit && (c == ':') && d.isDigit && e.isDigit
  | [a, b, c, d] => a.isDigit && (b == ':') && c.isDigit && d.isDigit
  | _ => false

/-- Try the two-digit-minutes alternative of the pattern at the start of
the text (the regex engine tries the greedy `\d{1,2}` length 2 first). -/
def clock5 : List Char → Option (List Char)
  | a :: b :: c :: d :: e :: _ =>
    if a.isDigit && b.isDigit && (c == ':') && d.isDigit && e.isDigit
    then some [a, b, c, d, e] else none
  | _ => none

/-- Try the one-digit-minutes alternative at the start of the text. -/
def clock4 : List Char → Option (List Char)
  | a :: b :: c :: d :: _ =>
    if a.isDigit && (b == ':') && c.isDigit && d.isDigit
    then some [a, b, c, d] else none
  | _ => none

/-- Match the clock pattern anchored at the start of the text, preferring
the longer minutes field, as the backtracking regex does. -/
def matchClockAt (cs : List Char) : Option (List Char) :=
  match clock5 cs with
  | some m => some m
  | none => clock4 cs

/-- `re.search` for the clock pattern: try each start position from the
left and return the first (leftmost) match. -/
def searchClock : List Char → Option (List Char)
  | [] => none
  | c :: rest =>
    match matchClockAt (c :: rest) with
    | some m => some m
    | none => searchClock rest

/-- The per-tick signal returned by `OCRReader.read_match_info`. -/
structure MatchSignal where
  has_objective : Bool
  timer_text : Option (List Char)
deriving DecidableEq

/-- `OCRReader.read_match_info` on the stripped OCR text: keyword (or its
truncation "objectiv") containment on the lowercased text, and the first
clock-pattern substring of the text. -/
def readMatchInfo (text : List Char) : MatchSignal :=
  { has_objective :=
      decide ("objective".data <:+: pyLower text)
        || decide ("objectiv".data <:+: pyLower text)
    timer_text := searchClock text }

theorem clock5_some {cs m : List Char} (h : clock5 cs = some m) :
    isClock m = true ∧ m <+: cs := by
  match cs, h with
  | a :: b :: c :: d :: e :: rest, h =>
    rw [clock5] at h
    by_cases hc : (a.isDigit && b.isDigit && (c == ':') && d.isDigit && e.isDigit) = true
    · rw [if_pos hc] at h
      cases h
      exact ⟨by simpa [isClock] using hc, ⟨rest, rfl⟩⟩
    · rw [if_neg hc] at h; cases h

theorem clock4_some {cs m : List Char} (h : clock4 cs = some m) :
    isClock m = true ∧ m <+: cs := by
  match cs, h with
  | a :: b :: c :: d :: rest, h =>
    rw [clock4] at h
    by_cases hc : (a.isDigit && (b == ':') && c.isDigit && d.isDigit) = true
    · rw [if_pos hc] at h
      cases h
      exact ⟨by simpa [isClock] using hc, ⟨rest, rfl⟩⟩
    · rw [if_neg hc] at h; cases h

theorem matchClockAt_some {cs m : List Char} (h : matchClockAt cs = some m) :
    isClock m = true ∧ m <+: cs := by
  rw [matchClockAt] at h
  cases h5 : clock5 cs with
  | some m5 => rw [h5] at h; cases h; exact clock5_some h5
  | none => rw [h5] at h; exact clock4_some h

theorem matchClockAt_none {cs : List Char} (h : matchClockAt cs = none) :
    ∀ m, isClock m = true → ¬ m <+: cs := by
  intro m hm hpre
  obtain ⟨t, ht⟩ := hpre
  have h5 : clock5 cs = none := by
    rw [matchClockAt] at h
    cases h5 : clock5 cs with
    | some m5 => rw [h5] at h; cases h
    | none => rfl
  have h4 : clock4 cs = none := by
    rw [matchClockAt, h5] at h; exact h
  match m, hm with
  | [a, b, c, d, e], hm =>
    have hcs : cs = a :: b :: c :: d :: e :: t := by simpa using ht.symm
    rw [hcs, clock5] at h5
    simp only [isClock] at hm
    rw [if_pos hm] at h5
    cases h5
  | [a, b, c, d], hm =>
    have hcs : cs = a :: b :: c :: d :: t := by simpa using ht.symm
    rw [hcs, clock4] at h4
    simp only [isClock] at hm
    rw [if_pos hm] at h4
    cases h4

theorem searchClock_some {cs m : List Char} (h : searchClock cs = some m) :
    isClock m = true
    ∧ ∃ pre post, cs = pre ++ m ++ post
        ∧ ∀ m' p q, isClock m' = true → cs = p ++ m' ++ q →
            pre.length ≤ p.length := by
  induction cs with
  | nil => cases h
  | cons c rest ih =>
    rw [searchClock] at h
    cases hat : matchClockAt (c :: rest) with
    | some m0 =>
      rw [hat] at h
      cases h
      obtain ⟨hclock, t, ht⟩ := matchClockAt_some hat
      exact ⟨hclock, [], t, by simpa using ht.symm,
        fun m' p q _ _ => Nat.zero_le _⟩
    | none =>
      rw [hat] at h
      obtain ⟨hclock, pre, post, heq, hmin⟩ := ih h
      refine ⟨hclock, c :: pre, post, by simp [heq], ?_⟩
      intro m' p q hm' hpq
      match p, hpq with
      | [], hpq =>
        exfalso
        exact matchClockAt_none hat m' hm' ⟨q, by simpa using hpq.symm⟩
      | c' :: p', hpq =>
        have hrest : rest = p' ++ m' ++ q := by
          simpa using congrArg List.tail hpq
        simpa using Nat.succ_le_succ (hmin m' p' q hm' hrest)

theorem searchClock_none {cs : List Char} (h : searchClock cs = none) :
    ∀ m, isClock m = true → ¬ ∃ p q, cs = p ++ m ++ q := by
  induction cs with
  | nil =>
    rintro m hm ⟨p, q, hpq⟩
    have hlen := congrArg List.length hpq
    simp only [List.length_nil, List.length_append] at hlen
    have hm0 : m = [] := List.length_eq_zero.mp (by omega)
    subst hm0
    simp [isClock] at hm
  | cons c rest ih =>
    rintro m hm ⟨p, q, hpq⟩
    rw [searchClock] at h
    cases hat : matchClockAt (c :: rest) with
    | some m0 => rw [hat] at h; cases h
    | none =>
      rw [hat] at h
      match p, hpq with
      | [], hpq =>
        exact matchClockAt_none hat m hm ⟨q, by simpa using hpq.symm⟩
      | c' :: p', hpq =>
        have hrest : rest = p' ++ m ++ q := by
          simpa using congrArg List.tail hpq
        exact ih h m hm ⟨p', q, hrest⟩

/-- C4: `read_match_info` sets `has_objective` exactly when the lowercased
text contains "objective" or its truncated variant "objectiv", and
`timer_text` is the first (leftmost, longer-minutes-first) substring
matching the `\d{1,2}:\d{2}` clock pattern, or none when no substring of
the text matches it. -/
theorem C4_read_match_info (text : List Char) :
    ((readMatchInfo text).has_objective = true ↔
      ("objective".data <:+: pyLower text ∨ "objectiv".data <:+: pyLower text))
    ∧ (∀ m, (readMatchInfo text).timer_text = some m →
        isClock m = true
        ∧ ∃ pre post, text = pre ++ m ++ post
            ∧ ∀ m' p q, isClock m' = true → text = p ++ m' ++ q →
                pre.length ≤ p.length)
    ∧ ((readMatchInfo text).timer_text = none →
        ∀ m, isClock m = true → ¬ ∃ p q, text = p ++ m ++ q) := by
  refine ⟨?_, ?_, ?_⟩
  · simp [readMatchInfo]
  · intro m hm
    exact searchClock_some hm
  · intro hnone
    exact searchClock_none hnone

/-- Witness for C4: the OCR line "Objective 12:34" has the keyword and its
first clock substring starts after the 10-character prefix. -/
theorem C4_witness :
    isClock "12:34".data = true
    ∧ ∃ pre post, "Objective 12:34".data = pre ++ "12:34".data ++ post
        ∧ ∀ m' p q, isClock m' = true →
            "Objective 12:34".data = p ++ m' ++ q → pre.length ≤ p.length :=
  (C4_read_match_info "Objective 12:34".data).2.1 "12:34".data (by decide)

/-! ## Weapon-name resolution (`OCRReader.read_weapon_name`) and the
similarity model of `difflib.SequenceMatcher` / `get_close_matches`.

The strings the program compares are short, so the autojunk heuristic of
`SequenceMatcher` (active only for second sequences of length ≥ 200) is not
modelled; no junk predicate is ever set.  Float similarity arithmetic is
modelled by exact rational arithmetic. -/

/-- Do `a[i]` and `b[j]` exist and agree? -/
def chEq (a b : List Char) (i j : ℕ) : Bool :=
  match a[i]?, b[j]? with
  | some x, some y => x == y
  | _, _ => false

/-- Length of the longest common block of `a` and `b` ending at positions
`i` and `j` (inclusive) — the `j2len` entries of
`SequenceMatcher.find_longest_match`. -/
def sufLen (a b : List Char) : ℕ → ℕ → ℕ
  | 0, j => if chEq a b 0 j then 1 else 0
  | i + 1, 0 => if chEq a b (i + 1) 0 then 1 else 0
  | i + 1, j + 1 => if chEq a b (i + 1) (j + 1) then sufLen a b i j + 1 else 0

/-- `SequenceMatcher.find_longest_match` over the whole sequences: scan the
ending pairs `(i, j)` in lexicographic order, keeping the first strictly
longest block; returns `(besti, bestj, bestsize)`. -/
def flm (a b : List Char) : ℕ × ℕ × ℕ :=
  (List.range a.length).foldl
    (fun best i =>
      (List.range b.length).foldl
        (fun best j =>
          let k := sufLen a b i j
          if best.2.2 < k then (i + 1 - k, j + 1 - k, k) else best)
        best)
    (0, 0, 0)

theorem sufLen_le_fst (a b : List Char) : ∀ i j, sufLen a b i j ≤ i + 1 := by
  intro i
  induction i with
  | zero =>
    intro j
    rw [sufLen]
    split <;> omega
  | succ i ih =>
    intro j
    cases j with
    | zero => rw [sufLen]; split <;> omega
    | succ j =>
      rw [sufLen]
      split
      · have := ih j; omega
      · omega

theorem sufLen_le_snd (a b : List Char) : ∀ i j, sufLen a b i j ≤ j + 1 := by
  intro i
  induction i with
  | zero =>
    intro j
    rw [sufLen]
    split <;> omega
  | succ i ih =>
    intro j
    cases j with
    | zero => rw [sufLen]; split <;> omega
    | succ j =>
      rw [sufLen]
      split
      · have := ih j; omega
      · omega

/-- The triple kept by the `flm` scan is either the initial `(0,0,0)` or a
block lying inside both sequences. -/
def FlmOk (a b : List Char) (t : ℕ × ℕ × ℕ) : Prop :=
  t.2.2 = 0 ∨ (t.1 + t.2.2 ≤ a.length ∧ t.2.1 + t.2.2 ≤ b.length)

theorem flm_ok (a b : List Char) : FlmOk a b (flm a b) := by
  apply foldl_invariant (FlmOk a b) _ (List.range a.length) (0, 0, 0)
    (Or.inl rfl)
  intro i hi x hx
  apply foldl_invariant (FlmOk a b) _ (List.range b.length) x hx
  intro j hj y hy
  dsimp only
  by_cases hlt : y.2.2 < sufLen a b i j
  · rw [if_pos hlt]
    right
    have hk1 : 1 ≤ sufLen a b i j := by omega
    have hki := sufLen_le_fst a b i j
    have hkj := sufLen_le_snd a b i j
    have hia : i < a.length := List.mem_range.mp hi
    have hjb : j < b.length := List.mem_range.mp hj
    constructor <;> (simp only; omega)
  · rw [if_neg hlt]; exact hy

/-- Total size of the matching blocks of `SequenceMatcher
.get_matching_blocks` (the Ratcliff–Obershelp recursion: longest block plus
the blocks of the two flanks). -/
def matchingSize (a b : List Char) : ℕ :=
  if _h : (flm a b).2.2 = 0 then 0
  else
    (flm a b).2.2
      + matchingSize (a.take (flm a b).1) (b.take (flm a b).2.1)
      + matchingSize (a.drop ((flm a b).1 + (flm a b).2.2))
          (b.drop ((flm a b).2.1 + (flm a b).2.2))
termination_by a.length + b.length
decreasing_by
  · rcases flm_ok a b with h0 | ⟨h1, h2⟩
    · exact absurd h0 _h
    · have hk : 1 ≤ (flm a b).2.2 := by omega
      simp only [List.length_take]
      omega
  · rcases flm_ok a b with h0 | ⟨h1, h2⟩
    · exact absurd h0 _h
    · have hk : 1 ≤ (flm a b).2.2 := by omega
      simp only [List.length_drop]
      omega

/-- `SequenceMatcher.ratio` (difflib `_calculate_ratio`): `2M/T`, and 1
when both sequences are empty. -/
def simScore (a b : List Char) : ℚ :=
  if a.length + b.length = 0 then 1
  else 2 * (matchingSize a b : ℚ) / (((a.length + b.length : ℕ) : ℚ))

/-- Python string `<` (lexicographic by code point). -/
def strLt : List Char → List Char → Bool
  | [], [] => false
  | [], _ :: _ => true
  | _ :: _, [] => false
  | x :: xs, y :: ys =>
    if x < y then true else if y < x then false else strLt xs ys

/-- One candidate step of `get_close_matches(word, vocab, n=1, cutoff)`:
keep a candidate iff its ratio clears the cutoff, and keep the running
maximum of the `(ratio, candidate)` pairs under the lexicographic tuple
order Python's `heapq.nlargest` uses (first maximum wins on full ties). -/
def gcmStep (word : List Char) (cutoff : ℚ)
    (best : Option (ℚ × List Char)) (v : List Char) :
    Option (ℚ × List Char) :=
  let r := simScore v word
  if cutoff ≤ r then
    match best with
    | none => some (r, v)
    | some (br, bv) =>
      if br < r ∨ (br = r ∧ strLt bv v = true) then some (r, v)
      else some (br, bv)
  else best

/-- `difflib.get_close_matches(word, vocab, n=1, cutoff)` returning the
single best entry, if any clears the cutoff. -/
def getCloseMatch1 (word : List Char) (cutoff : ℚ)
    (vocab : List (List Char)) : Option (List Char) :=
  (vocab.foldl (gcmStep word cutoff) none).map Prod.snd

/-- `OCRReader.read_weapon_name` on the OCR text (`read_text` strips it):
empty → none; first case-insensitive exact match; else fuzzy match at the
configured cutoff (`confidence_threshold`). -/
def readWeaponName (weapon_names : List (List Char)) (cutoff : ℚ)
    (ocrText : List Char) : Option (List Char) :=
  let raw_text := pyStrip ocrText
  if raw_text = [] then none
  else
    match weapon_names.find? (fun n => pyLower n == pyLower raw_text) with
    | some n => some n
    | none => getCloseMatch1 raw_text cutoff weapon_names

theorem gcmStep_below {word : List Char} {cutoff : ℚ} {v : List Char}
    (h : ¬ cutoff ≤ simScore v word) (best : Option (ℚ × List Char)) :
    gcmStep word cutoff best v = best := by
  simp [gcmStep, h]

theorem gcmStep_none {word : List Char} {cutoff : ℚ} {v : List Char}
    (h : cutoff ≤ simScore v word) :
    gcmStep word cutoff none v = some (simScore v word, v) := by
  simp [gcmStep, h]

theorem gcmStep_some (word : List Char) (cutoff : ℚ) (p : ℚ × List Char)
    (v : List Char) :
    ∃ q, gcmStep word cutoff (some p) v = some q
      ∧ p.1 ≤ q.1
      ∧ (cutoff ≤ simScore v word → simScore v word ≤ q.1)
      ∧ (q = p ∨ (q.1 = simScore v word ∧ q.2 = v ∧ cutoff ≤ simScore v word)) := by
  obtain ⟨br, bv⟩ := p
  by_cases hc : cutoff ≤ simScore v word
  · by_cases hrepl : br < simScore v word ∨ (br = simScore v word ∧ strLt bv v = true)
    · refine ⟨(simScore v word, v), by simp [gcmStep, hc, hrepl], ?_,
        fun _ => le_refl _, Or.inr ⟨rfl, rfl, hc⟩⟩
      rcases hrepl with h | ⟨h, -⟩
      · exact le_of_lt h
      · exact le_of_eq h
    · refine ⟨(br, bv), by simp [gcmStep, hc, hrepl], le_refl _, ?_, Or.inl rfl⟩
      intro _
      push_neg at hrepl
      exact hrepl.1
  · exact ⟨(br, bv), by simp [gcmStep, hc], le_refl _,
      fun h => absurd h hc, Or.inl rfl⟩

theorem gcm_fold_some (word : List Char) (cutoff : ℚ) :
    ∀ (l : List (List Char)) (p : ℚ × List Char),
      ∃ q, l.foldl (gcmStep word cutoff) (some p) = some q
        ∧ p.1 ≤ q.1
        ∧ (q = p ∨ (q.2 ∈ l ∧ q.1 = simScore q.2 word ∧ cutoff ≤ q.1))
        ∧ (∀ u ∈ l, cutoff ≤ simScore u word → simScore u word ≤ q.1) := by
  intro l
  induction l with
  | nil => exact fun p => ⟨p, rfl, le_refl _, Or.inl rfl, by simp⟩
  | cons v l ih =>
    intro p
    obtain ⟨q1, hq1, hple, hv, hq1src⟩ := gcmStep_some word cutoff p v
    obtain ⟨q, hq, hq1le, hmem, hmax⟩ := ih q1
    refine ⟨q, ?_, le_trans hple hq1le, ?_, ?_⟩
    · simpa [List.foldl, hq1] using hq
    · rcases hmem with rfl | ⟨hql, hqv, hqc⟩
      · rcases hq1src with rfl | ⟨h1, h2, h3⟩
        · exact Or.inl rfl
        · exact Or.inr ⟨by simp [h2], by rw [h2]; exact h1, by rw [h1]; exact h3⟩
      · exact Or.inr ⟨List.mem_cons_of_mem v hql, hqv, hqc⟩
    · intro u hu hcu
      rcases List.mem_cons.mp hu with rfl | hul
      · exact le_trans (hv hcu) hq1le
      · exact hmax u hul hcu

theorem gcm_fold_none (word : List Char) (cutoff : ℚ) :
    ∀ l : List (List Char),
      (l.foldl (gcmStep word cutoff) none = none
        ∧ ∀ u ∈ l, ¬ cutoff ≤ simScore u word)
      ∨ (∃ q, l.foldl (gcmStep word cutoff) none = some q
          ∧ q.2 ∈ l ∧ q.1 = simScore q.2 word ∧ cutoff ≤ q.1
          ∧ ∀ u ∈ l, cutoff ≤ simScore u word → simScore u word ≤ q.1) := by
  intro l
  induction l with
  | nil => exact Or.inl ⟨rfl, by simp⟩
  | cons v l ih =>
    by_cases hc : cutoff ≤ simScore v word
    · right
      obtain ⟨q, hq, hple, hmem, hmax⟩ :=
        gcm_fold_some word cutoff l (simScore v word, v)
      refine ⟨q, ?_, ?_, ?_, ?_, ?_⟩
      · simpa [List.foldl, gcmStep_none hc] using hq
      · rcases hmem with rfl | ⟨h1, -, -⟩
        · simp
        · exact List.mem_cons_of_mem v h1
      · rcases hmem with rfl | ⟨-, h2, -⟩
        · rfl
        · exact h2
      · rcases hmem with rfl | ⟨-, -, h3⟩
        · exact hc
        · exact h3
      · intro u hu hcu
        rcases List.mem_cons.mp hu with rfl | hul
        · exact hple
        · exact hmax u hul hcu
    · have hstep : gcmStep word cutoff none v = none := gcmStep_below hc none
      rcases ih with ⟨hn, hall⟩ | ⟨q, hq, hqm, hqv, hqc, hmax⟩
      · left
        refine ⟨by simpa [List.foldl, hstep] using hn, ?_⟩
        intro u hu
        rcases List.mem_cons.mp hu with rfl | hul
        · exact hc
        · exact hall u hul
      · right
        refine ⟨q, by simpa [List.foldl, hstep] using hq,
          List.mem_cons_of_mem v hqm, hqv, hqc, ?_⟩
        intro u hu hcu
        rcases List.mem_cons.mp hu with rfl | hul
        · exact absurd hcu hc
        · exact hmax u hul hcu

/-- C2: `read_weapon_name` is the three-step first-hit-wins algorithm: an
OCR text empty after stripping yields none; otherwise the first vocabulary
entry equal to the stripped text under case-insensitive comparison is
returned in its canonical casing; otherwise the result is none exactly when
no entry's similarity to the raw text clears the cutoff, and any returned
entry is a vocabulary entry clearing the cutoff whose similarity is maximal
over the vocabulary. -/
theorem C2_read_weapon_name (weapon_names : List (List Char)) (cutoff : ℚ)
    (ocr : List Char) :
    (pyStrip ocr = [] → readWeaponName weapon_names cutoff ocr = none)
    ∧ (∀ n, pyStrip ocr ≠ [] →
        weapon_names.find? (fun m => pyLower m == pyLower (pyStrip ocr)) = some n →
        readWeaponName weapon_names cutoff ocr = some n)
    ∧ (pyStrip ocr ≠ [] →
        weapon_names.find? (fun m => pyLower m == pyLower (pyStrip ocr)) = none →
        ((readWeaponName weapon_names cutoff ocr = none ↔
            ∀ u ∈ weapon_names, simScore u (pyStrip ocr) < cutoff)
          ∧ (∀ v, readWeaponName weapon_names cutoff ocr = some v →
              v ∈ weapon_names ∧ cutoff ≤ simScore v (pyStrip ocr)
              ∧ ∀ u ∈ weapon_names,
                  simScore u (pyStrip ocr) ≤ simScore v (pyStrip ocr)))) := by
  refine ⟨?_, ?_, ?_⟩
  · intro h
    simp [readWeaponName, h]
  · intro n hne hfind
    simp [readWeaponName, hne, hfind]
  · intro hne hfind
    have hrw : readWeaponName weapon_names cutoff ocr
        = getCloseMatch1 (pyStrip ocr) cutoff weapon_names := by
      simp [readWeaponName, hne, hfind]
    rcases gcm_fold_none (pyStrip ocr) cutoff weapon_names with
      ⟨hn, hall⟩ | ⟨q, hq, hqm, hqv, hqc, hmax⟩
    · constructor
      · rw [hrw]
        unfold getCloseMatch1
        rw [hn]
        exact iff_of_true rfl (fun u hu => not_le.mp (hall u hu))
      · intro v hv
        rw [hrw] at hv
        unfold getCloseMatch1 at hv
        rw [hn] at hv
        cases hv
    · constructor
      · rw [hrw]
        unfold getCloseMatch1
        rw [hq]
        apply iff_of_false
        · simp
        · push_neg
          exact ⟨q.2, hqm, by rw [← hqv]; exact hqc⟩
      · intro v hv
        rw [hrw] at hv
        unfold getCloseMatch1 at hv
        rw [hq] at hv
        simp only [Option.map_some', Option.some_inj] at hv
        subst hv
        refine ⟨hqm, by rw [← hqv]; exact hqc, ?_⟩
        intro u hu
        rcases le_or_lt cutoff (simScore u (pyStrip ocr)) with hcu | hcu
        · rw [← hqv]; exact hmax u hu hcu
        · rw [← hqv]; exact le_trans (le_of_lt hcu) hqc

/-- Witness for C2: the exact-match step resolves " vECTor " (stripped, any
casing) to the canonical "Vector". -/
theorem C2_witness :
    readWeaponName ["Vector".data] (3/5) " vECTor ".data = some "Vector".data :=
  (C2_read_weapon_name ["Vector".data] (3/5) " vECTor ".data).2.1 "Vector".data
    (by decide) (by decide)

theorem matchingSize_zero {a b : List Char} (h : (flm a b).2.2 = 0) :
    matchingSize a b = 0 := by
  unfold matchingSize
  simp [h]

theorem matchingSize_step {a b : List Char} {i j k : ℕ}
    (h : flm a b = (i, j, k)) (hk : k ≠ 0) :
    matchingSize a b
      = k + matchingSize (a.take i) (b.take j)
        + matchingSize (a.drop (i + k)) (b.drop (j + k)) := by
  conv_lhs => rw [matchingSize]
  simp [h, hk]

set_option maxRecDepth 40000 in
theorem flm_mixed_case : flm "Vector".data "VECTORR".data = (0, 0, 1) := by
  decide

set_option maxRecDepth 40000 in
theorem flm_lower_case : flm "vector".data "vectorr".data = (0, 0, 6) := by
  decide

set_option maxRecDepth 40000 in
theorem matchingSize_mixed_case :
    matchingSize "Vector".data "VECTORR".data = 1 := by
  have h1 : matchingSize ("Vector".data.take 0) ("VECTORR".data.take 0) = 0 :=
    matchingSize_zero (by decide)
  have h2 : matchingSize ("Vector".data.drop (0 + 1)) ("VECTORR".data.drop (0 + 1)) = 0 :=
    matchingSize_zero (by decide)
  rw [matchingSize_step flm_mixed_case (by decide), h1, h2]

set_option maxRecDepth 40000 in
theorem matchingSize_lower_case :
    matchingSize "vector".data "vectorr".data = 6 := by
  have h1 : matchingSize ("vector".data.take 0) ("vectorr".data.take 0) = 0 :=
    matchingSize_zero (by decide)
  have h2 : matchingSize ("vector".data.drop (0 + 6)) ("vectorr".data.drop (0 + 6)) = 0 :=
    matchingSize_zero (by decide)
  rw [matchingSize_step flm_lower_case (by decide), h1, h2]

theorem simScore_mixed_case :
    simScore "Vector".data "VECTORR".data = 2 / 13 := by
  unfold simScore
  rw [matchingSize_mixed_case,
    show ("Vector".data.length + "VECTORR".data.length) = 13 from by decide]
  norm_num

theorem simScore_lower_case :
    simScore "vector".data "vectorr".data = 12 / 13 := by
  unfold simScore
  rw [matchingSize_lower_case,
    show ("vector".data.length + "vectorr".data.length) = 13 from by decide]
  norm_num

/-- C10: the fuzzy step compares case-sensitively, unlike the exact step:
"VECTORR" (the entry "Vector" uppercased plus one appended letter) resolves
to none against the vocabulary ["Vector"] at cutoff 3/5, although the
case-normalized strings differ only by the appended letter and their
similarity 12/13 clears the cutoff. -/
theorem C10_fuzzy_case_sensitivity :
    readWeaponName ["Vector".data] (3/5) "VECTORR".data = none
    ∧ pyLower "VECTORR".data = pyLower "Vector".data ++ ['r']
    ∧ (3/5 : ℚ) ≤ simScore (pyLower "Vector".data) (pyLower "VECTORR".data) := by
  refine ⟨?_, by decide, ?_⟩
  · have hbelow : ¬ (3/5 : ℚ) ≤ simScore "Vector".data "VECTORR".data := by
      rw [simScore_mixed_case]; norm_num
    have hgcm : getCloseMatch1 "VECTORR".data (3/5) ["Vector".data] = none := by
      simp [getCloseMatch1, List.foldl, gcmStep_below hbelow]
    have hstrip : pyStrip "VECTORR".data = "VECTORR".data := by decide
    have hfind : (["Vector".data] : List (List Char)).find?
        (fun n => pyLower n == pyLower "VECTORR".data) = none := by decide
    simp [readWeaponName, hstrip, hfind, hgcm,
      show "VECTORR".data ≠ [] from by decide]
  · rw [show pyLower "Vector".data = "vector".data from by decide,
      show pyLower "VECTORR".data = "vectorr".data from by decide,
      simScore_lower_case]
    norm_num

end StrinovaRPC
